import Mathlib

/-!
Verification of the interactive organization engine of the apiok frontend
(`frontend/src/App.tsx`, `frontend/src/utils/dragUtils.ts`,
`frontend/src/types.ts`).

Embedding conventions:
- TypeScript numbers used as entity ids are modelled as `Nat`; pointer
  coordinates and element geometry are modelled as `ℚ` (the constants that
  occur, such as `0.25` and `/ 2`, are exact in both binary floating point
  and `ℚ`).
- JavaScript array index arithmetic (`findIndex` returning `-1`,
  `Math.min`) is modelled on `Int` by `jsFindIndex`/`jsIndex`;
  `Array.splice(i, 0, x)` is modelled by `insertAt`.
- `undefined`/`null` become `none`; tab ids (strings of the shape
  `tab-<n>` generated from a monotone counter) are modelled by the `Nat`
  counter value, with the empty-string "no active tab" sentinel modelled
  as `none : Option Nat`.
- React state setters become pure state-passing functions: a handler that
  calls `setX` is modelled as a function returning the new value of `X`.
  Calls to the REST collaborator (`api.*`) are modelled as emitted
  `ApiCall` values, so "no persistence call is issued" is the statement
  that the emitted list is empty.
-/

/-- The `'before' | 'after'` gap position literal type of `types.ts`. -/
inductive GapPos where
  | before
  | after
deriving DecidableEq, Repr

/-- `DragItemType = 'request' | 'folder'` from `types.ts`. -/
inductive DragItemType where
  | request
  | folder
deriving DecidableEq, Repr

/-- `DragData` from `types.ts`: the item currently being dragged. -/
structure DragData where
  type : DragItemType
  id : Nat
  folderId : Option Nat
deriving DecidableEq, Repr

/-- `DropTarget` from `types.ts`, as the tagged union it is used as in
`App.tsx`: a `gap` target carries `position`, `refId`, `refType`; a
`folder` target carries `targetFolderId`. -/
inductive DropTarget where
  | gap (position : GapPos) (refId : Nat) (refType : DragItemType)
  | folder (targetFolderId : Nat)
deriving DecidableEq, Repr

/-- One call to the REST persistence collaborator (`api/client.ts`), as
issued by the drop handlers in `App.tsx`. -/
inductive ApiCall where
  | reorderRequests (requestIds : List Nat)
  | reorderFolders (folderIds : List Nat)
  | updateRequestFolder (id : Nat) (folderId : Nat)
  | updateFolderParent (id : Nat) (parentFolderId : Nat)
deriving DecidableEq, Repr

/-- `calcGapPosition` from `dragUtils.ts`: pointer above the vertical
midpoint of the hovered element means `before`, at or below means
`after`. -/
def calcGapPosition (mouseY : ℚ) (top height : ℚ) : GapPos :=
  let midY := top + height / 2
  if mouseY < midY then .before else .after

/-- JavaScript `Array.prototype.findIndex`: first index satisfying the
predicate, `-1` if none does. -/
def jsFindIndex {T : Type} (p : T → Bool) : List T → Int
  | [] => -1
  | x :: xs =>
    if p x then 0
    else
      let r := jsFindIndex p xs
      if r == -1 then -1 else r + 1

/-- JavaScript `arr[i]` for a possibly out-of-range index. -/
def jsIndex {T : Type} (l : List T) (i : Int) : Option T :=
  if i < 0 then none else l.get? i.toNat

/-- JavaScript `arr.splice(i, 0, x)` (insertion form): insert `x` at
index `i`, clamping to the end when `i` exceeds the length. -/
def insertAt {T : Type} (l : List T) (i : Nat) (x : T) : List T :=
  l.take i ++ x :: l.drop i

/-- `reorderList` from `dragUtils.ts`. It is generic over
`T extends { id: number }` in the source; the id projection is passed
explicitly here. -/
def reorderList {T : Type} (getId : T → Nat) (items : List T)
    (dragId refId : Nat) (position : GapPos) : List T :=
  match items.find? (fun item => getId item == dragId) with
  | none => items
  | some dragItem =>
    let remaining := items.filter (fun item => getId item != dragId)
    let refIndex := jsFindIndex (fun item => getId item == refId) remaining
    if refIndex == -1 then items
    else
      let insertIndex := match position with
        | .before => refIndex
        | .after => refIndex + 1
      insertAt remaining insertIndex.toNat dragItem

/-- `isValidDrop` from `dragUtils.ts`: requests may target request gaps
or folders, folders may target folder gaps or folders. -/
def isValidDrop (dragType : DragItemType) (dropTarget : DropTarget) : Bool :=
  match dropTarget with
  | .gap _ _ refType =>
    match dragType with
    | .request => decide (refType = .request)
    | .folder => decide (refType = .folder)
  | .folder _ =>
    match dragType with
    | .request => true
    | .folder => true

/-- Persisted `Request` from `types.ts` (timestamps and `body_type`,
which no modelled operation reads, are omitted). Record-typed
`headers`/`query_params` become association lists in entry order. -/
structure Request where
  id : Nat
  name : String
  method : String
  url : String
  headers : List (String × String)
  query_params : List (String × String)
  body : Option String
  folder_id : Option Nat
  sort_order : Nat

/-- Persisted `Folder` from `types.ts` (timestamps omitted). -/
structure Folder where
  id : Nat
  name : String
  parent_folder_id : Option Nat
  sort_order : Nat
  children : List Folder
  requests : List Request

theorem Folder.sizeOf_children_lt (f : Folder) : sizeOf f.children < sizeOf f := by
  cases f with
  | mk a b c d e g => simp [Folder.mk.sizeOf_spec]; omega

/-- The sidebar tree snapshot held in the `folders` and
`standaloneRequests` React states of `App.tsx`. -/
structure TreeState where
  folders : List Folder
  standaloneRequests : List Request

/-- The recursive `searchFolders` closure inside `getSiblingRequests`
(`App.tsx`): for each folder, first its own `requests`, then its
`children` recursively, then the rest of the list. -/
def searchFoldersRequests (refId : Nat) : List Folder → Option (List Request)
  | [] => none
  | folder :: rest =>
    if folder.requests.any (fun r => r.id == refId) then some folder.requests
    else
      match searchFoldersRequests refId folder.children with
      | some found => some found
      | none => searchFoldersRequests refId rest
termination_by l => sizeOf l
decreasing_by
· simp_wf
  have h := Folder.sizeOf_children_lt folder
  omega
· simp_wf

/-- `getSiblingRequests` from `App.tsx`: the sibling group of the request
with id `refId`, or `[]` when no request anywhere has that id. -/
def getSiblingRequests (st : TreeState) (refId : Nat) : List Request :=
  if st.standaloneRequests.any (fun r => r.id == refId) then st.standaloneRequests
  else (searchFoldersRequests refId st.folders).getD []

/-- The recursive `searchFolders` closure inside `getSiblingFolders`
(`App.tsx`). -/
def searchFoldersChildren (refId : Nat) : List Folder → Option (List Folder)
  | [] => none
  | folder :: rest =>
    if folder.children.any (fun f => f.id == refId) then some folder.children
    else
      match searchFoldersChildren refId folder.children with
      | some found => some found
      | none => searchFoldersChildren refId rest
termination_by l => sizeOf l
decreasing_by
· simp_wf
  have h := Folder.sizeOf_children_lt folder
  omega
· simp_wf

/-- `getSiblingFolders` from `App.tsx`. -/
def getSiblingFolders (st : TreeState) (refId : Nat) : List Folder :=
  if st.folders.any (fun f => f.id == refId) then st.folders
  else (searchFoldersChildren refId st.folders).getD []

/-- `handleDragOver` from `App.tsx`: with a drag in progress, hovering an
item row unconditionally resolves to a gap target on that item (the
result is the new value of the `dropTarget` state; with no drag in
progress the state is left unchanged). -/
def handleDragOver (dragData : Option DragData) (dropTarget : Option DropTarget)
    (clientY top height : ℚ) (itemId : Nat) (itemType : DragItemType) :
    Option DropTarget :=
  match dragData with
  | none => dropTarget
  | some _ => some (.gap (calcGapPosition clientY top height) itemId itemType)

/-- `handleFolderDragOver` from `App.tsx`. -/
def handleFolderDragOver (dragData : Option DragData)
    (dropTarget : Option DropTarget) (folderId : Nat) : Option DropTarget :=
  match dragData with
  | none => dropTarget
  | some _ => some (.folder folderId)

/-- The `onDragOver` handler of a folder row in `renderFolderTree`
(`App.tsx`): top and bottom quarter of the row resolve through
`handleDragOver` (gap), the rest through `handleFolderDragOver`
(container). -/
def folderRowDragOver (dragData : Option DragData)
    (dropTarget : Option DropTarget) (clientY top height : ℚ)
    (folderId : Nat) : Option DropTarget :=
  let relativeY := clientY - top
  let threshold := height * (1 / 4)
  if relativeY < threshold ∨ relativeY > height - threshold then
    handleDragOver dragData dropTarget clientY top height folderId .folder
  else
    handleFolderDragOver dragData dropTarget folderId

/-- `renderGapIndicator` from `App.tsx`: whether the gap indicator line
is rendered at the given position of the given item. -/
def renderGapIndicator (dropTarget : Option DropTarget) (position : GapPos)
    (itemId : Nat) : Bool :=
  match dropTarget with
  | some (.gap p refId _) => decide (refId = itemId) && decide (p = position)
  | _ => false

/-- `handleGapDrop` from `App.tsx`, as the list of persistence calls it
issues. -/
def handleGapDrop (st : TreeState) (drag : DragData) (position : GapPos)
    (refId : Nat) (refType : DragItemType) : List ApiCall :=
  if drag.type = .request ∧ refType = .request then
    let siblings := getSiblingRequests st refId
    let newOrder := reorderList (fun r => r.id) siblings drag.id refId position
    [.reorderRequests (newOrder.map (fun r => r.id))]
  else if drag.type = .folder ∧ refType = .folder then
    let siblings := getSiblingFolders st refId
    let newOrder := reorderList (fun f => f.id) siblings drag.id refId position
    [.reorderFolders (newOrder.map (fun f => f.id))]
  else []

/-- `handleFolderDrop` from `App.tsx`, as the list of persistence calls
it issues: an unconditional re-parent update for the dragged item. -/
def handleFolderDrop (drag : DragData) (targetFolderId : Nat) : List ApiCall :=
  match drag.type with
  | .request => [.updateRequestFolder drag.id targetFolderId]
  | .folder => [.updateFolderParent drag.id targetFolderId]

/-- `handleDrop` from `App.tsx`, as the list of persistence calls it
issues before reloading. -/
def handleDrop (st : TreeState) (dragData : Option DragData)
    (dropTarget : Option DropTarget) : List ApiCall :=
  match dragData, dropTarget with
  | some drag, some (.gap position refId refType) =>
    handleGapDrop st drag position refId refType
  | some drag, some (.folder targetFolderId) =>
    handleFolderDrop drag targetFolderId
  | _, _ => []

/-- `fid` is the id of `f` itself or of a folder somewhere in `f`'s
subtree (used to state the descendant side conditions of the
specification's cycle guard). -/
def folderOccursIn (fid : Nat) : List Folder → Bool
  | [] => false
  | folder :: rest =>
    folder.id == fid || folderOccursIn fid folder.children
      || folderOccursIn fid rest
termination_by l => sizeOf l
decreasing_by
· simp_wf
  have h := Folder.sizeOf_children_lt folder
  omega
· simp_wf

/-- `rid` is the id of a request somewhere in the given folder forest. -/
def requestOccursIn (rid : Nat) : List Folder → Bool
  | [] => false
  | folder :: rest =>
    folder.requests.any (fun r => r.id == rid)
      || requestOccursIn rid folder.children || requestOccursIn rid rest
termination_by l => sizeOf l
decreasing_by
· simp_wf
  have h := Folder.sizeOf_children_lt folder
  omega
· simp_wf

/-- The spec item used in the reorder scenario (`{id:1}` etc.). -/
structure Item where
  id : Nat
deriving DecidableEq, Repr

/-- `ParamItem` from `App.tsx`: one editable key/value row. -/
structure ParamItem where
  key : String
  value : String
  description : String
  enabled : Bool
deriving DecidableEq, Repr

/-- `emptyParam()` from `App.tsx`. -/
def emptyParam : ParamItem :=
  { key := "", value := "", description := "", enabled := true }

/-- `ExecuteResponse` from `types.ts` (the `body_json` field, an
arbitrary parsed JSON value only used for display, is omitted). -/
structure ExecuteResponse where
  status_code : Nat
  status_text : String
  headers : List (String × String)
  body : Option String
  response_time_ms : Nat
  response_size : Nat
  warnings : List String
deriving DecidableEq, Repr

/-- `History` from `types.ts` (timestamp kept as its string form). -/
structure History where
  id : Nat
  request_id : Option Nat
  method : String
  url : String
  request_headers : List (String × String)
  request_body : Option String
  status_code : Nat
  status_text : String
  response_headers : List (String × String)
  response_body : Option String
  response_time_ms : Nat
  response_size : Nat
  executed_at : String
deriving DecidableEq, Repr

/-- `RequestTab` from `App.tsx`: one open editor tab. The string tab id
`tab-<n>` is modelled by the counter value `n`. -/
structure RequestTab where
  id : Nat
  requestId : Option Nat
  name : String
  method : String
  url : String
  headers : List ParamItem
  queryParams : List ParamItem
  body : String
  folder_id : Option Nat
  response : Option ExecuteResponse
  dirty : Bool
deriving DecidableEq, Repr

/-- The tab-session state of `App.tsx`: the `openTabs` and `activeTabId`
React states plus the `tabCounter` ref that generates fresh tab ids.
`activeTabId = none` models the empty-string sentinel (no tab active). -/
structure SessionState where
  openTabs : List RequestTab
  activeTabId : Option Nat
  tabCounter : Nat
deriving DecidableEq, Repr

/-- The initial session: the pre-created draft `tab-0` is open and
active, and the counter starts at 1. -/
def initialState : SessionState :=
  let tab0 : RequestTab :=
    { id := 0, requestId := none, name := "新建请求", method := "GET",
      url := "", headers := [emptyParam], queryParams := [emptyParam],
      body := "", folder_id := none, response := none, dirty := true }
  { openTabs := [tab0], activeTabId := some 0, tabCounter := 1 }

/-- `Object.entries(record).map(([key, value]) => ... enabled: true)` as
used when seeding a tab's rows from a persisted record. -/
def paramsOfRecord (kvs : List (String × String)) : List ParamItem :=
  kvs.map (fun kv =>
    { key := kv.1, value := kv.2, description := "", enabled := true })

/-- JavaScript `x || undefined` on a nullable numeric id: the id `0` is
falsy and collapses to `undefined`. -/
def jsOrNone (x : Option Nat) : Option Nat :=
  match x with
  | some 0 => none
  | y => y

/-- `currentTab` from `App.tsx`:
`openTabs.find(t => t.id === activeTabId) || openTabs[0]`. -/
def currentTabOf (s : SessionState) : Option RequestTab :=
  match s.openTabs.find? (fun t => some t.id == s.activeTabId) with
  | some t => some t
  | none => s.openTabs.head?

/-- The derived `currentRequest` object of `App.tsx` (each field goes
through `currentTab?.field || default`; the defaults only apply when no
tab exists, since the actual field values are never falsy there). -/
structure CurrentRequest where
  id : Option Nat
  name : String
  method : String
  url : String
  headers : List ParamItem
  queryParams : List ParamItem
  body : String
  folder_id : Option Nat
deriving DecidableEq, Repr

/-- The `currentRequest` snapshot derived from the session state. -/
def currentRequestOf (s : SessionState) : CurrentRequest :=
  let ct := currentTabOf s
  { id := ct.bind (fun t => t.requestId)
  , name := (ct.map (fun t => t.name)).getD ""
  , method := (ct.map (fun t => t.method)).getD "GET"
  , url := (ct.map (fun t => t.url)).getD ""
  , headers := (ct.map (fun t => t.headers)).getD [emptyParam]
  , queryParams := (ct.map (fun t => t.queryParams)).getD [emptyParam]
  , body := (ct.map (fun t => t.body)).getD ""
  , folder_id := ct.bind (fun t => t.folder_id) }

/-- `setCurrentRequest` from `App.tsx`: every field edit funnels through
this; it patches the active tab's fields and sets `dirty` on it. -/
def setCurrentRequest (s : SessionState) (req : CurrentRequest) : SessionState :=
  let patch : RequestTab → RequestTab := fun t =>
    { t with
      requestId := req.id, name := req.name, method := req.method,
      url := req.url, headers := req.headers, queryParams := req.queryParams,
      body := req.body, folder_id := req.folder_id, dirty := true }
  { s with openTabs := s.openTabs.map (fun t =>
      if some t.id == s.activeTabId then patch t else t) }

/-- `loadRequest` from `App.tsx` (the session manager's `open`): if a tab
for this persisted request already exists, just activate it; otherwise
append a fresh clean tab seeded from the persisted fields, with one
trailing blank row added to `headers` and `queryParams`. -/
def loadRequest (s : SessionState) (req : Request) : SessionState :=
  match s.openTabs.find? (fun t => t.requestId == some req.id) with
  | some existing => { s with activeTabId := some existing.id }
  | none =>
    let newId := s.tabCounter
    let newTab : RequestTab :=
      { id := newId, requestId := some req.id, name := req.name,
        method := req.method, url := req.url,
        headers := paramsOfRecord req.headers ++ [emptyParam],
        queryParams := paramsOfRecord req.query_params ++ [emptyParam],
        body := req.body.getD "", folder_id := jsOrNone req.folder_id,
        response := none, dirty := false }
    { openTabs := s.openTabs ++ [newTab], activeTabId := some newId,
      tabCounter := s.tabCounter + 1 }

/-- `newRequest` from `App.tsx` (the session manager's `new`): always
append a fresh dirty draft tab and activate it. -/
def newRequest (s : SessionState) (folderId : Option Nat) : SessionState :=
  let newId := s.tabCounter
  let newTab : RequestTab :=
    { id := newId, requestId := none, name := "新建请求", method := "GET",
      url := "", headers := [emptyParam], queryParams := [emptyParam],
      body := "", folder_id := folderId, response := none, dirty := true }
  { openTabs := s.openTabs ++ [newTab], activeTabId := some newId,
    tabCounter := s.tabCounter + 1 }

/-- `closeTab` from `App.tsx`. When the closed tab was active and tabs
remain, the tab at `remaining[Math.min(idx, remaining.length - 1)]`
becomes active (where JavaScript would fault reading `.id` of
`undefined` on a stale id, the model yields `none`; that branch is
unreachable while the active tab actually occurs in the list). -/
def closeTab (s : SessionState) (tabId : Nat) : SessionState :=
  let remaining := s.openTabs.filter (fun t => t.id != tabId)
  let newActive : Option Nat :=
    if s.activeTabId == some tabId then
      if 0 < remaining.length then
        let idx : Int := jsFindIndex (fun t => t.id == tabId) s.openTabs
        let k : Int := min idx ((remaining.length : Int) - 1)
        (jsIndex remaining k).map (fun t => t.id)
      else none
    else s.activeTabId
  { s with openTabs := remaining, activeTabId := newActive }

/-- `closeOtherTabs` from `App.tsx`. -/
def closeOtherTabs (s : SessionState) (tabId : Nat) : SessionState :=
  let keep := s.openTabs.filter (fun t => t.id == tabId)
  if keep.length = 0 then s
  else { s with openTabs := keep, activeTabId := some tabId }

/-- `closeAllTabs` from `App.tsx`. -/
def closeAllTabs (s : SessionState) : SessionState :=
  { s with openTabs := [], activeTabId := none }

/-- The `response` object `loadFromHistory` reconstructs from a history
entry. -/
def historyResponse (h : History) : ExecuteResponse :=
  { status_code := h.status_code, status_text := h.status_text,
    headers := h.response_headers, body := h.response_body,
    response_time_ms := h.response_time_ms,
    response_size := h.response_size, warnings := [] }

/-- `loadFromHistory` from `App.tsx`: opens a dirty, unlinked tab seeded
from a history entry. -/
def loadFromHistory (s : SessionState) (h : History) : SessionState :=
  let newId := s.tabCounter
  let newTab : RequestTab :=
    { id := newId, requestId := none, name := "历史记录 - " ++ h.method,
      method := h.method, url := h.url,
      headers := paramsOfRecord h.request_headers ++ [emptyParam],
      queryParams := [emptyParam], body := h.request_body.getD "",
      folder_id := none, response := some (historyResponse h),
      dirty := true }
  { openTabs := s.openTabs ++ [newTab], activeTabId := some newId,
    tabCounter := s.tabCounter + 1 }

/-- The session-state effect of a successful `saveRequest` from
`App.tsx`: on the create path (`currentRequest.id` absent) the
server-assigned `createdId` is bound onto the active tab via
`setCurrentRequest`; either way the active tab is then marked clean (and
renamed when a `nameOverride` was supplied; callers only pass a
non-empty trimmed override, so JavaScript's empty-string falsiness in
`nameOverride || currentRequest.name` never fires). -/
def saveRequest (s : SessionState) (createdId : Nat)
    (nameOverride : Option String) : SessionState :=
  let cur := currentRequestOf s
  let name := nameOverride.getD cur.name
  let s1 := match cur.id with
    | some _ => s
    | none => setCurrentRequest s { cur with id := some createdId, name := name }
  { s1 with openTabs := s1.openTabs.map (fun t =>
      if some t.id == s1.activeTabId then
        match nameOverride with
        | some n => { t with name := n, dirty := false }
        | none => { t with dirty := false }
      else t) }

/-- `setResponse` from `App.tsx`: store an execution result on the
active tab. -/
def setResponse (s : SessionState) (resp : Option ExecuteResponse) :
    SessionState :=
  { s with openTabs := s.openTabs.map (fun t =>
      if some t.id == s.activeTabId then { t with response := resp } else t) }

/-- One Session Manager operation of `App.tsx`, relating a session state
to its successor. The `save` step carries the assumption that the id the
server returns for a `create` is brand new (ids are assigned by the
persistence layer and never reused for live tabs); the `edit` step
records that every field-edit call site spreads `currentRequest`, so the
patch carries the active tab's own `requestId`. -/
inductive SessionStep : SessionState → SessionState → Prop where
  | openReq (s : SessionState) (req : Request) :
      SessionStep s (loadRequest s req)
  | newTab (s : SessionState) (folderId : Option Nat) :
      SessionStep s (newRequest s folderId)
  | close (s : SessionState) (tabId : Nat) :
      SessionStep s (closeTab s tabId)
  | closeOthers (s : SessionState) (tabId : Nat) :
      SessionStep s (closeOtherTabs s tabId)
  | closeAll (s : SessionState) :
      SessionStep s (closeAllTabs s)
  | history (s : SessionState) (h : History) :
      SessionStep s (loadFromHistory s h)
  | edit (s : SessionState) (req : CurrentRequest)
      (hid : req.id = (currentRequestOf s).id) :
      SessionStep s (setCurrentRequest s req)
  | save (s : SessionState) (createdId : Nat) (nameOverride : Option String)
      (hfresh : ∀ t ∈ s.openTabs, t.requestId ≠ some createdId) :
      SessionStep s (saveRequest s createdId nameOverride)
  | response (s : SessionState) (resp : Option ExecuteResponse) :
      SessionStep s (setResponse s resp)

/-- Session states that can actually arise in the running application:
the initial state followed by any sequence of Session Manager
operations. -/
inductive ReachableSession : SessionState → Prop where
  | init : ReachableSession initialState
  | step {s s' : SessionState} :
      ReachableSession s → SessionStep s s' → ReachableSession s'

/-- The session invariant: every open tab id was generated by the
counter, tab ids are pairwise distinct, and at most one open tab is
linked to any given persisted request id. -/
def SessionInv (s : SessionState) : Prop :=
  (∀ t ∈ s.openTabs, t.id < s.tabCounter) ∧
  (s.openTabs.map (fun t => t.id)).Nodup ∧
  (s.openTabs.filterMap (fun t => t.requestId)).Nodup

/- General list lemmas used throughout. -/

theorem find?_first_match {T : Type} (p : T → Bool) (l1 l2 : List T) (x : T)
    (h1 : ∀ u ∈ l1, p u = false) (hx : p x = true) :
    (l1 ++ x :: l2).find? p = some x := by
  induction l1 with
  | nil => simp [List.find?, hx]
  | cons c rest ih =>
    have hc : p c = false := h1 c (by simp)
    simp only [List.cons_append, List.find?, hc]
    exact ih (fun u hu => h1 u (by simp [hu]))

theorem filter_split_out {T : Type} (p : T → Bool) (l1 l2 : List T) (x : T)
    (h1 : ∀ u ∈ l1, p u = true) (h2 : ∀ u ∈ l2, p u = true)
    (hx : p x = false) :
    (l1 ++ x :: l2).filter p = l1 ++ l2 := by
  induction l1 with
  | nil =>
    simp only [List.nil_append, List.filter_cons, hx, if_neg Bool.false_ne_true]
    exact List.filter_eq_self.mpr h2
  | cons c rest ih =>
    have hc : p c = true := h1 c (by simp)
    simp only [List.cons_append, List.filter_cons, hc, if_true]
    simp [ih (fun u hu => h1 u (by simp [hu]))]

theorem jsFindIndex_cons {T : Type} (p : T → Bool) (c : T) (rest : List T) :
    jsFindIndex p (c :: rest) =
      if p c then 0
      else if jsFindIndex p rest == -1 then -1 else jsFindIndex p rest + 1 := by
  simp [jsFindIndex]

theorem jsFindIndex_append {T : Type} (p : T → Bool) (l1 l2 : List T) (x : T)
    (h1 : ∀ u ∈ l1, p u = false) (hx : p x = true) :
    jsFindIndex p (l1 ++ x :: l2) = (l1.length : Int) := by
  induction l1 with
  | nil => simp [jsFindIndex, hx]
  | cons c rest ih =>
    have hc : p c = false := h1 c (by simp)
    have hr := ih (fun u hu => h1 u (by simp [hu]))
    rw [List.cons_append, jsFindIndex_cons, hc, hr]
    simp only [Bool.false_eq_true, if_false]
    split_ifs with h
    · exfalso
      rw [beq_iff_eq] at h
      omega
    · simp only [List.length_cons]
      push_cast
      ring

theorem jsFindIndex_none {T : Type} (p : T → Bool) :
    ∀ l : List T, (∀ u ∈ l, p u = false) → jsFindIndex p l = -1 := by
  intro l
  induction l with
  | nil => intro _; rfl
  | cons c rest ih =>
    intro h
    have hc : p c = false := h c (by simp)
    have hr := ih (fun u hu => h u (by simp [hu]))
    simp [jsFindIndex, hc, hr]

theorem insertAt_at_split {T : Type} (l1 l2 : List T) (x : T) :
    insertAt (l1 ++ l2) l1.length x = l1 ++ x :: l2 := by
  simp [insertAt, List.take_left, List.drop_left]

theorem nodup_ids_split {T : Type} (getId : T → Nat) (l1 l2 : List T) (t : T)
    (hnd : ((l1 ++ t :: l2).map getId).Nodup) :
    (∀ u ∈ l1, getId u ≠ getId t) ∧ (∀ u ∈ l2, getId u ≠ getId t) := by
  rw [List.map_append, List.map_cons] at hnd
  rw [List.nodup_middle, List.nodup_cons] at hnd
  constructor
  · intro u hu he
    exact hnd.1 (by rw [← he]; exact List.mem_append_left _ (List.mem_map_of_mem getId hu))
  · intro u hu he
    exact hnd.1 (by rw [← he]; exact List.mem_append_right _ (List.mem_map_of_mem getId hu))

theorem eq_of_mem_nodup_ids {T : Type} (getId : T → Nat) (l : List T)
    (hnd : (l.map getId).Nodup) (u v : T) (hu : u ∈ l) (hv : v ∈ l)
    (hid : getId u = getId v) : u = v := by
  induction l with
  | nil => cases hu
  | cons c rest ih =>
    rw [List.map_cons, List.nodup_cons] at hnd
    rcases List.mem_cons.mp hu with hu1 | hu2 <;>
      rcases List.mem_cons.mp hv with hv1 | hv2
    · rw [hu1, hv1]
    · exfalso
      apply hnd.1
      rw [hu1] at hid
      rw [hid]
      exact List.mem_map_of_mem getId hv2
    · exfalso
      apply hnd.1
      rw [hv1] at hid
      rw [← hid]
      exact List.mem_map_of_mem getId hu2
    · exact ih hnd.2 hu2 hv2

/-- Exact shape of `reorderList` on a well-formed sibling group: the drag
item is removed and re-inserted immediately before (resp. after) the
reference item, leaving everything else in place. -/
theorem reorderList_split {T : Type} (getId : T → Nat) (S : List T) (a b : T)
    (hnd : (S.map getId).Nodup) (ha : a ∈ S) (hb : b ∈ S)
    (hab : getId a ≠ getId b) :
    ∃ m1 m2,
      S.filter (fun x => getId x != getId a) = m1 ++ b :: m2 ∧
      reorderList getId S (getId a) (getId b) GapPos.before = m1 ++ a :: b :: m2 ∧
      reorderList getId S (getId a) (getId b) GapPos.after = m1 ++ b :: a :: m2 ∧
      (∀ u ∈ m1, getId u ≠ getId a) ∧ (∀ u ∈ m2, getId u ≠ getId a) := by
  obtain ⟨s1, s2, hS⟩ := List.append_of_mem ha
  subst hS
  obtain ⟨hs1, hs2⟩ := nodup_ids_split getId s1 s2 a hnd
  have hfind : (s1 ++ a :: s2).find? (fun x => getId x == getId a) = some a := by
    apply find?_first_match
    · intro u hu
      exact beq_eq_false_iff_ne.mpr (hs1 u hu)
    · exact beq_self_eq_true (getId a)
  have hrem : (s1 ++ a :: s2).filter (fun x => getId x != getId a) = s1 ++ s2 := by
    apply filter_split_out
    · intro u hu
      simpa using hs1 u hu
    · intro u hu
      simpa using hs2 u hu
    · simp
  have hbmem : b ∈ s1 ++ s2 := by
    have hba : b ≠ a := fun he => hab (by rw [he])
    rcases List.mem_append.mp hb with h1 | h2
    · exact List.mem_append_left _ h1
    · rcases List.mem_cons.mp h2 with h3 | h4
      · exact absurd h3 hba
      · exact List.mem_append_right _ h4
  have hndrem : ((s1 ++ s2).map getId).Nodup := by
    rw [← hrem]
    exact hnd.sublist (List.Sublist.map getId (List.filter_sublist _))
  obtain ⟨m1, m2, hm⟩ := List.append_of_mem hbmem
  rw [hm] at hrem hndrem
  obtain ⟨hm1b, _⟩ := nodup_ids_split getId m1 m2 b hndrem
  have hidx : jsFindIndex (fun x => getId x == getId b) (m1 ++ b :: m2) =
      (m1.length : Int) := by
    apply jsFindIndex_append
    · intro u hu
      exact beq_eq_false_iff_ne.mpr (hm1b u hu)
    · exact beq_self_eq_true (getId b)
  have hmema : ∀ u ∈ m1 ++ b :: m2, getId u ≠ getId a := by
    intro u hu
    rw [← hrem] at hu
    have := (List.mem_filter.mp hu).2
    simpa using this
  have hm1a : ∀ u ∈ m1, getId u ≠ getId a :=
    fun u hu => hmema u (List.mem_append_left _ hu)
  have hm2a : ∀ u ∈ m2, getId u ≠ getId a :=
    fun u hu => hmema u (List.mem_append_right _ (List.mem_cons_of_mem b hu))
  have hne1 : ¬(((m1.length : Int) == -1) = true) := by
    rw [beq_iff_eq]
    omega
  have htn1 : ((m1.length : Int)).toNat = m1.length := by omega
  have htn2 : ((m1.length : Int) + 1).toNat = m1.length + 1 := by omega
  refine ⟨m1, m2, hrem, ?_, ?_, hm1a, hm2a⟩
  · simp only [reorderList, hfind, hrem, hidx, if_neg hne1, htn1]
    exact insertAt_at_split m1 (b :: m2) a
  · simp only [reorderList, hfind, hrem, hidx, if_neg hne1, htn2]
    have h1 : m1 ++ b :: m2 = (m1 ++ [b]) ++ m2 := by simp
    have h2 : m1.length + 1 = (m1 ++ [b]).length := by simp
    rw [h1, h2, insertAt_at_split]
    simp

/-- C2: `reorder(S, a, b, before)` places the drag item immediately
before the reference item, `reorder(S, a, b, after)` immediately after
it, both preserving the relative order of all other items; and the
specification's concrete scenario
`reorder([id 1, id 2, id 3], 3, 1, before) = [id 3, id 1, id 2]`. -/
theorem c2_reorder_adjacent {T : Type} (getId : T → Nat) (S : List T) (a b : T)
    (hnd : (S.map getId).Nodup) (ha : a ∈ S) (hb : b ∈ S)
    (hab : getId a ≠ getId b) :
    (∃ l1 l2, reorderList getId S (getId a) (getId b) GapPos.before =
      l1 ++ a :: b :: l2) ∧
    (∃ l1 l2, reorderList getId S (getId a) (getId b) GapPos.after =
      l1 ++ b :: a :: l2) ∧
    (reorderList getId S (getId a) (getId b) GapPos.before).filter
        (fun x => getId x != getId a) =
      S.filter (fun x => getId x != getId a) ∧
    (reorderList getId S (getId a) (getId b) GapPos.after).filter
        (fun x => getId x != getId a) =
      S.filter (fun x => getId x != getId a) ∧
    reorderList (fun it => it.id) [⟨1⟩, ⟨2⟩, ⟨3⟩] 3 1 GapPos.before =
      ([⟨3⟩, ⟨1⟩, ⟨2⟩] : List Item) := by
  obtain ⟨m1, m2, hfil, hbef, haft, hm1, hm2⟩ :=
    reorderList_split getId S a b hnd ha hb hab
  have hba : getId b ≠ getId a := fun he => hab he.symm
  refine ⟨⟨m1, m2, hbef⟩, ⟨m1, m2, haft⟩, ?_, ?_, by decide⟩
  · rw [hbef, hfil]
    apply filter_split_out
    · intro u hu
      simpa using hm1 u hu
    · intro u hu
      rcases List.mem_cons.mp hu with h1 | h2
      · subst h1
        simpa using hba
      · simpa using hm2 u h2
    · simp
  · rw [haft, hfil]
    have h1 : m1 ++ b :: a :: m2 = (m1 ++ [b]) ++ a :: m2 := by simp
    rw [h1]
    have h5 : ((m1 ++ [b]) ++ a :: m2).filter (fun x => getId x != getId a) =
        (m1 ++ [b]) ++ m2 := by
      apply filter_split_out
      · intro u hu
        rcases List.mem_append.mp hu with hA | hB
        · simpa using hm1 u hA
        · rcases List.mem_cons.mp hB with hC | hD
          · subst hC
            simpa using hba
          · cases hD
      · intro u hu
        simpa using hm2 u hu
      · simp
    rw [h5]
    simp

/-- C5: `reorder` is a defensive no-op when the drag id does not occur
in the sibling group, and likewise when the reference id does not occur
in the remaining sequence after the drag item is removed. -/
theorem c5_reorder_missing_noop {T : Type} (getId : T → Nat) (S : List T)
    (dragId refId : Nat) (position : GapPos) :
    ((∀ x ∈ S, getId x ≠ dragId) →
      reorderList getId S dragId refId position = S) ∧
    ((∀ x ∈ S.filter (fun item => getId item != dragId), getId x ≠ refId) →
      reorderList getId S dragId refId position = S) := by
  constructor
  · intro h
    have hfind : S.find? (fun item => getId item == dragId) = none := by
      rw [List.find?_eq_none]
      intro x hx
      simp only [beq_iff_eq]
      exact h x hx
    simp [reorderList, hfind]
  · intro h
    cases hfind : S.find? (fun item => getId item == dragId) with
    | none => simp [reorderList, hfind]
    | some d =>
      have hidx : jsFindIndex (fun item => getId item == refId)
          (S.filter (fun item => getId item != dragId)) = -1 := by
        apply jsFindIndex_none
        intro u hu
        simp only [beq_eq_false_iff_ne]
        exact h u hu
      simp [reorderList, hfind, hidx]

/-- Closed instance of C5 discharging its hypotheses: id 9 occurs
nowhere in `[id 1, id 2, id 3]`, so the reorder leaves it unchanged. -/
theorem c5_witness :
    reorderList (fun it : Item => it.id) ([⟨1⟩, ⟨2⟩, ⟨3⟩] : List Item) 9 1
      GapPos.before = ([⟨1⟩, ⟨2⟩, ⟨3⟩] : List Item) :=
  (c5_reorder_missing_noop (fun it : Item => it.id)
    ([⟨1⟩, ⟨2⟩, ⟨3⟩] : List Item) 9 1 GapPos.before).1 (by decide)

/-- Closed instance of C2 discharging its hypotheses on the
specification's scenario list. -/
theorem c2_witness :
    (reorderList (fun it : Item => it.id) ([⟨1⟩, ⟨2⟩, ⟨3⟩] : List Item) 3 1
        GapPos.before).filter (fun x => x.id != 3) =
      ([⟨1⟩, ⟨2⟩, ⟨3⟩] : List Item).filter (fun x => x.id != 3) :=
  (c2_reorder_adjacent (fun it : Item => it.id) ([⟨1⟩, ⟨2⟩, ⟨3⟩] : List Item)
    ⟨3⟩ ⟨1⟩ (by decide) (by decide) (by decide) (by decide)).2.2.1

/-- C8: the folder-row drop resolver splits the row into three symmetric
zones: strictly inside the top quarter or the bottom quarter the target
is a gap, anywhere in the closed middle half it is the folder container,
and in particular the exact vertical center always resolves to the
container (the boundary is inclusive toward the container). -/
theorem c8_folder_row_zones (d : DragData) (prev : Option DropTarget)
    (clientY top height : ℚ) (fid : Nat)
    (h0 : 0 ≤ clientY - top) (hh : clientY - top ≤ height) :
    (clientY - top < height / 4 ∨ height - height / 4 < clientY - top →
      folderRowDragOver (some d) prev clientY top height fid =
        some (.gap (calcGapPosition clientY top height) fid .folder)) ∧
    (height / 4 ≤ clientY - top ∧ clientY - top ≤ height - height / 4 →
      folderRowDragOver (some d) prev clientY top height fid =
        some (.folder fid)) ∧
    (clientY - top = height / 2 →
      folderRowDragOver (some d) prev clientY top height fid =
        some (.folder fid)) := by
  have hmid : height / 4 ≤ clientY - top → clientY - top ≤ height - height / 4 →
      folderRowDragOver (some d) prev clientY top height fid =
        some (.folder fid) := by
    intro h1 h2
    simp only [folderRowDragOver]
    rw [if_neg]
    · rfl
    · push_neg
      constructor
      · linarith
      · linarith
  refine ⟨?_, fun hp => hmid hp.1 hp.2, ?_⟩
  · intro h
    have hcond : clientY - top < height * (1 / 4) ∨
        height - height * (1 / 4) < clientY - top := by
      rcases h with h | h
      · left
        linarith
      · right
        linarith
    simp only [folderRowDragOver]
    rw [if_pos]
    · rfl
    · exact hcond
  · intro hc
    have hge : 0 ≤ height := by linarith
    exact hmid (by linarith) (by linarith)

/-- Sample drag payloads and a sample folder tree used by the closed
instances below. -/
def dragReq1 : DragData := { type := .request, id := 1, folderId := none }

def dragFolderF : DragData := { type := .folder, id := 1, folderId := none }

def folderD : Folder :=
  { id := 2, name := "D", parent_folder_id := some 1, sort_order := 0,
    children := [], requests := [] }

def folderF : Folder :=
  { id := 1, name := "F", parent_folder_id := none, sort_order := 1,
    children := [folderD], requests := [] }

def emptyTree : TreeState := { folders := [], standaloneRequests := [] }

/-- Closed instance of C8 discharging its hypotheses: on a 40px-high
folder row the pointer at the exact center (y = 20) resolves to the
container target. -/
theorem c8_witness :
    folderRowDragOver (some dragReq1) none 20 0 40 7 = some (.folder 7) :=
  (c8_folder_row_zones dragReq1 none 20 0 40 7 (by norm_num)
    (by norm_num)).2.2 (by norm_num)

/-- C1 (failing input): the code has no cycle guard. Folder 2 is a
descendant of folder 1, yet dropping folder 1 onto the container target
of folder 2 issues the `updateFolder` persistence call re-parenting 1
under 2 - and dropping folder 1 onto itself likewise issues a call -
where the specification demands a rejected no-op with no persistence
call. -/
theorem c1_cycle_guard_missing :
    folderOccursIn 2 [folderF] = true ∧
    handleDrop { folders := [folderF], standaloneRequests := [] }
        (some dragFolderF) (some (.folder 2)) =
      [ApiCall.updateFolderParent 1 2] ∧
    handleFolderDrop dragFolderF 1 = [ApiCall.updateFolderParent 1 1] := by
  refine ⟨?_, rfl, rfl⟩
  simp [folderOccursIn, folderF, folderD]

/-- C3 (failing input): while dragging a request, hovering the top
quarter of a folder row surfaces a `Gap` target whose reference kind is
`folder` (a mismatched pairing), and the gap indicator renders for it -
the `isValidDrop` filter, which would reject this pairing, is never
consulted by the drag-over handlers. -/
theorem c3_mismatched_gap_surfaced :
    folderRowDragOver (some dragReq1) none 0 0 40 5 =
      some (.gap .before 5 .folder) ∧
    renderGapIndicator (some (.gap .before 5 .folder)) .before 5 = true ∧
    isValidDrop .request (.gap .before 5 .folder) = false := by
  refine ⟨?_, rfl, rfl⟩
  simp only [folderRowDragOver, handleDragOver, calcGapPosition]
  norm_num

/-- If no request anywhere in the forest has id `refId`, the recursive
search of `getSiblingRequests` finds nothing. -/
theorem searchFoldersRequests_none (refId : Nat) :
    ∀ fs : List Folder, requestOccursIn refId fs = false →
      searchFoldersRequests refId fs = none
  | [] => fun _ => by simp [searchFoldersRequests]
  | folder :: rest => fun h => by
    rw [requestOccursIn] at h
    simp only [Bool.or_eq_false_iff] at h
    obtain ⟨⟨h1, h2⟩, h3⟩ := h
    have hc := searchFoldersRequests_none refId folder.children h2
    have hr := searchFoldersRequests_none refId rest h3
    rw [searchFoldersRequests]
    simp [h1, hc, hr]
termination_by fs => sizeOf fs
decreasing_by
· simp_wf
  have := Folder.sizeOf_children_lt folder
  omega
· simp_wf

/-- If no folder anywhere in the forest has id `refId`, then in
particular no member of the forest's top level has it. -/
theorem any_id_false_of_no_folder (refId : Nat) :
    ∀ fs : List Folder, folderOccursIn refId fs = false →
      fs.any (fun f => f.id == refId) = false := by
  intro fs
  induction fs with
  | nil => intro _; rfl
  | cons folder rest ih =>
    intro h
    rw [folderOccursIn] at h
    simp only [Bool.or_eq_false_iff] at h
    obtain ⟨⟨h1, _⟩, h3⟩ := h
    simp only [List.any_cons, Bool.or_eq_false_iff]
    exact ⟨h1, ih h3⟩

/-- If no folder anywhere in the forest has id `refId`, the recursive
search of `getSiblingFolders` finds nothing. -/
theorem searchFoldersChildren_none (refId : Nat) :
    ∀ fs : List Folder, folderOccursIn refId fs = false →
      searchFoldersChildren refId fs = none
  | [] => fun _ => by simp [searchFoldersChildren]
  | folder :: rest => fun h => by
    rw [folderOccursIn] at h
    simp only [Bool.or_eq_false_iff] at h
    obtain ⟨⟨_, h2⟩, h3⟩ := h
    have h1 : folder.children.any (fun f => f.id == refId) = false :=
      any_id_false_of_no_folder refId folder.children h2
    have hc := searchFoldersChildren_none refId folder.children h2
    have hr := searchFoldersChildren_none refId rest h3
    rw [searchFoldersChildren]
    simp [h1, hc, hr]
termination_by fs => sizeOf fs
decreasing_by
· simp_wf
  have := Folder.sizeOf_children_lt folder
  omega
· simp_wf

/-- C4 (amended): when the gap reference id exists nowhere in the tree,
both sibling lookups return the empty sentinel and the drop completes
without failure - but in the matching-kind branches a reorder
persistence call carrying the empty id sequence is still issued (a
semantic no-op on the server, not the absence of a call). -/
theorem c4_gap_drop_missing_ref (st : TreeState) (drag : DragData)
    (position : GapPos) (refId : Nat) (refType : DragItemType)
    (hsa : st.standaloneRequests.any (fun r => r.id == refId) = false)
    (hreq : requestOccursIn refId st.folders = false)
    (hfol : folderOccursIn refId st.folders = false) :
    getSiblingRequests st refId = [] ∧ getSiblingFolders st refId = [] ∧
    handleGapDrop st drag position refId refType =
      (if drag.type = .request ∧ refType = .request then
        [ApiCall.reorderRequests []]
      else if drag.type = .folder ∧ refType = .folder then
        [ApiCall.reorderFolders []]
      else []) := by
  have h1 : getSiblingRequests st refId = [] := by
    simp [getSiblingRequests, hsa,
      searchFoldersRequests_none refId st.folders hreq]
  have h2 : getSiblingFolders st refId = [] := by
    simp [getSiblingFolders, any_id_false_of_no_folder refId st.folders hfol,
      searchFoldersChildren_none refId st.folders hfol]
  refine ⟨h1, h2, ?_⟩
  by_cases hc1 : drag.type = .request ∧ refType = .request
  · simp [handleGapDrop, hc1, h1, reorderList]
  · by_cases hc2 : drag.type = .folder ∧ refType = .folder
    · simp [handleGapDrop, hc1, hc2, h2, reorderList]
    · simp [handleGapDrop, hc1, hc2]

/-- C4 (counterexample to the claim as stated): a request-gap drop whose
reference id 99 exists nowhere still issues a persistence call - the
request-reorder endpoint is invoked with the empty id list, so "no
persistence call is issued" is false on the code. -/
theorem c4_counterexample :
    getSiblingRequests emptyTree 99 = [] ∧
    handleGapDrop emptyTree dragReq1 GapPos.before 99 .request =
      [ApiCall.reorderRequests []] ∧
    handleGapDrop emptyTree dragReq1 GapPos.before 99 .request ≠ [] := by
  have h1 : getSiblingRequests emptyTree 99 = [] := by
    simp [getSiblingRequests, emptyTree, searchFoldersRequests]
  have h2 : handleGapDrop emptyTree dragReq1 GapPos.before 99 .request =
      [ApiCall.reorderRequests []] := by
    simp [handleGapDrop, dragReq1, h1, reorderList]
  exact ⟨h1, h2, by rw [h2]; simp⟩

/-- Closed instance of C4 discharging its hypotheses on a concrete tree
(folder 1 containing folder 2, no requests, missing reference id 99). -/
theorem c4_witness :
    getSiblingRequests { folders := [folderF], standaloneRequests := [] } 99 =
        [] ∧
    getSiblingFolders { folders := [folderF], standaloneRequests := [] } 99 =
        [] ∧
    handleGapDrop { folders := [folderF], standaloneRequests := [] }
        dragFolderF GapPos.after 99 .folder = [ApiCall.reorderFolders []] := by
  have h := c4_gap_drop_missing_ref
    { folders := [folderF], standaloneRequests := [] } dragFolderF
    GapPos.after 99 .folder (by rfl)
    (by simp [requestOccursIn, folderF, folderD])
    (by simp [folderOccursIn, folderF, folderD])
  refine ⟨h.1, h.2.1, ?_⟩
  rw [h.2.2]
  rfl

theorem mem_rids_iff (l : List RequestTab) (rid : Nat) :
    rid ∈ l.filterMap (fun t => t.requestId) ↔
      ∃ t ∈ l, t.requestId = some rid := by
  simp [List.mem_filterMap]

/-- With all tab-to-request links pairwise distinct, the linear scan of
`loadRequest` finds exactly the tab linked to the given request id. -/
theorem find?_requestId_unique (l : List RequestTab) (t : RequestTab)
    (rid : Nat) (hnd : (l.filterMap (fun u => u.requestId)).Nodup)
    (ht : t ∈ l) (htr : t.requestId = some rid) :
    l.find? (fun u => u.requestId == some rid) = some t := by
  induction l with
  | nil => cases ht
  | cons c rest ih =>
    by_cases hc : (c.requestId == some rid) = true
    · have hceq : c.requestId = some rid := by simpa using hc
      have htc : t = c := by
        rcases List.mem_cons.mp ht with h1 | h2
        · exact h1
        · exfalso
          have hmem : rid ∈ rest.filterMap (fun u => u.requestId) := by
            rw [mem_rids_iff]
            exact ⟨t, h2, htr⟩
          rw [List.filterMap_cons, hceq] at hnd
          exact (List.nodup_cons.mp hnd).1 hmem
      rw [@List.find?_cons_of_pos _ (fun u => u.requestId == some rid) c rest
        hc, htc]
    · have hcne : c.requestId ≠ some rid := by simpa using hc
      have htc : t ≠ c := fun he => hcne (by rw [← he]; exact htr)
      have ht2 : t ∈ rest := by
        rcases List.mem_cons.mp ht with h1 | h2
        · exact absurd h1 htc
        · exact h2
      have hnd2 : (rest.filterMap (fun u => u.requestId)).Nodup := by
        rw [List.filterMap_cons] at hnd
        cases hcr : c.requestId with
        | none => rwa [hcr] at hnd
        | some v =>
          rw [hcr] at hnd
          exact (List.nodup_cons.mp hnd).2
      rw [@List.find?_cons_of_neg _ (fun u => u.requestId == some rid) c rest
        hc]
      exact ih hnd2 ht2

theorem ids_of_map_preserving (g : RequestTab → RequestTab)
    (l : List RequestTab) (h : ∀ t ∈ l, (g t).id = t.id) :
    (l.map g).map (fun t => t.id) = l.map (fun t => t.id) := by
  induction l with
  | nil => rfl
  | cons c rest ih =>
    simp only [List.map_cons]
    rw [h c (by simp), ih (fun t ht => h t (by simp [ht]))]

theorem rids_of_map_preserving (g : RequestTab → RequestTab)
    (l : List RequestTab) (h : ∀ t ∈ l, (g t).requestId = t.requestId) :
    (l.map g).filterMap (fun t => t.requestId) =
      l.filterMap (fun t => t.requestId) := by
  induction l with
  | nil => rfl
  | cons c rest ih =>
    simp only [List.map_cons, List.filterMap_cons]
    rw [h c (by simp), ih (fun t ht => h t (by simp [ht]))]

theorem map_cond_id {T : Type} (g : T → T) (cond : T → Bool) (l : List T)
    (h : ∀ u ∈ l, cond u = false) :
    l.map (fun t => if cond t then g t else t) = l := by
  induction l with
  | nil => rfl
  | cons c rest ih =>
    have hc := h c (by simp)
    simp only [List.map_cons, hc, Bool.false_eq_true, if_false]
    rw [ih (fun u hu => h u (by simp [hu]))]

theorem map_cond_split {T : Type} (g : T → T) (cond : T → Bool)
    (l1 l2 : List T) (t0 : T)
    (h1 : ∀ u ∈ l1, cond u = false) (h2 : ∀ u ∈ l2, cond u = false)
    (h0 : cond t0 = true) :
    (l1 ++ t0 :: l2).map (fun t => if cond t then g t else t) =
      l1 ++ g t0 :: l2 := by
  induction l1 with
  | nil =>
    simp only [List.nil_append, List.map_cons, h0, if_true]
    rw [map_cond_id g cond l2 h2]
  | cons c rest ih =>
    have hc := h1 c (by simp)
    simp only [List.cons_append, List.map_cons, hc, Bool.false_eq_true,
      if_false]
    rw [ih (fun u hu => h1 u (by simp [hu]))]

/-- With pairwise distinct tab ids, a successful scan for the active tab
splits the list around the unique match. -/
theorem active_find_split (l : List RequestTab) (act : Option Nat)
    (t0 : RequestTab) (hnd : (l.map (fun t => t.id)).Nodup)
    (hf : l.find? (fun t => some t.id == act) = some t0) :
    ∃ l1 l2, l = l1 ++ t0 :: l2 ∧
      (∀ u ∈ l1, (some u.id == act) = false) ∧
      (∀ u ∈ l2, (some u.id == act) = false) := by
  induction l with
  | nil => cases hf
  | cons c rest ih =>
    rw [List.map_cons, List.nodup_cons] at hnd
    by_cases hc : (some c.id == act) = true
    · rw [@List.find?_cons_of_pos _ (fun t => some t.id == act) c rest hc]
        at hf
      have hct : c = t0 := by injection hf
      subst hct
      refine ⟨[], rest, rfl, by simp, ?_⟩
      intro u hu
      cases hx : (some u.id == act) with
      | false => rfl
      | true =>
        exfalso
        have h1 : some u.id = act := by simpa using hx
        have h2 : some c.id = act := by simpa using hc
        have h3 : u.id = c.id := by
          rw [← h2] at h1
          injection h1
        exact hnd.1 (h3 ▸ List.mem_map_of_mem (fun t => t.id) hu)
    · rw [@List.find?_cons_of_neg _ (fun t => some t.id == act) c rest hc]
        at hf
      obtain ⟨l1, l2, heq, hA, hB⟩ := ih hnd.2 hf
      refine ⟨c :: l1, l2, by rw [heq]; rfl, ?_, hB⟩
      intro u hu
      rcases List.mem_cons.mp hu with h1 | h2
      · subst h1
        cases hx : (some u.id == act) with
        | false => rfl
        | true => exact absurd hx hc
      · exact hA u h2

theorem inv_append_fresh (s : SessionState) (hinv : SessionInv s)
    (nt : RequestTab) (hid : nt.id = s.tabCounter)
    (hrid : ∀ rid, nt.requestId = some rid →
      rid ∉ s.openTabs.filterMap (fun t => t.requestId)) :
    SessionInv
      { openTabs := s.openTabs ++ [nt],
        activeTabId := some nt.id, tabCounter := s.tabCounter + 1 } := by
  obtain ⟨hb, hids, hrids⟩ := hinv
  refine ⟨?_, ?_, ?_⟩
  · intro t htm
    show t.id < s.tabCounter + 1
    rcases List.mem_append.mp htm with h1 | h2
    · have := hb t h1
      omega
    · rcases List.mem_cons.mp h2 with h3 | h4
      · subst h3
        omega
      · cases h4
  · rw [List.map_append]
    rw [List.nodup_append]
    refine ⟨hids, by simp, ?_⟩
    intro a ha hb2
    simp only [List.map_cons, List.map_nil, List.mem_singleton] at hb2
    subst hb2
    obtain ⟨t, ht, hta⟩ := List.mem_map.mp ha
    have := hb t ht
    omega
  · rw [List.filterMap_append]
    cases hno : nt.requestId with
    | none => simpa [hno] using hrids
    | some rid =>
      have hni := hrid rid hno
      simp only [List.filterMap_cons, hno, List.filterMap_nil]
      rw [List.nodup_append]
      refine ⟨hrids, by simp, ?_⟩
      intro a ha hb2
      simp only [List.mem_singleton] at hb2
      subst hb2
      exact hni ha

theorem inv_of_sublist (s : SessionState) (hinv : SessionInv s)
    (l : List RequestTab) (hsub : List.Sublist l s.openTabs)
    (act : Option Nat) :
    SessionInv
      { openTabs := l, activeTabId := act, tabCounter := s.tabCounter } := by
  obtain ⟨hb, hids, hrids⟩ := hinv
  refine ⟨?_, ?_, ?_⟩
  · intro t ht
    exact hb t (hsub.subset ht)
  · exact hids.sublist (hsub.map (fun t => t.id))
  · exact hrids.sublist (hsub.filterMap (fun t => t.requestId))

theorem inv_map_preserving (s : SessionState) (hinv : SessionInv s)
    (g : RequestTab → RequestTab) (act : Option Nat)
    (hid : ∀ t ∈ s.openTabs, (g t).id = t.id)
    (hrid : ∀ t ∈ s.openTabs, (g t).requestId = t.requestId) :
    SessionInv
      { openTabs := s.openTabs.map g, activeTabId := act,
        tabCounter := s.tabCounter } := by
  obtain ⟨hb, hids, hrids⟩ := hinv
  refine ⟨?_, ?_, ?_⟩
  · intro t htm
    obtain ⟨u, hu, hut⟩ := List.mem_map.mp htm
    have := hb u hu
    rw [← hut, hid u hu]
    exact this
  · rw [ids_of_map_preserving _ _ hid]
    exact hids
  · rw [rids_of_map_preserving _ _ hrid]
    exact hrids

theorem map_eq_self_of_fix {T : Type} (f : T → T) (l : List T)
    (h : ∀ u ∈ l, f u = u) : l.map f = l := by
  induction l with
  | nil => rfl
  | cons c rest ih =>
    simp only [List.map_cons]
    rw [h c (by simp), ih (fun u hu => h u (by simp [hu]))]

theorem map_split_at_fix {T : Type} (f : T → T) (l1 l2 : List T) (t0 : T)
    (h1 : ∀ u ∈ l1, f u = u) (h2 : ∀ u ∈ l2, f u = u) :
    (l1 ++ t0 :: l2).map f = l1 ++ f t0 :: l2 := by
  induction l1 with
  | nil =>
    simp only [List.nil_append, List.map_cons]
    rw [map_eq_self_of_fix f l2 h2]
  | cons c rest ih =>
    simp only [List.cons_append, List.map_cons]
    rw [h1 c (by simp), ih (fun u hu => h1 u (by simp [hu]))]

/-- The create path of `saveRequest` binds a fresh server-assigned id
onto the active draft tab; with the freshness assumption the one-tab-
per-request invariant survives the bind. -/
theorem inv_bind_created (s : SessionState) (hinv : SessionInv s)
    (req : CurrentRequest) (createdId : Nat)
    (hreq : req.id = some createdId)
    (hcur : (currentRequestOf s).id = none)
    (hfresh : ∀ t ∈ s.openTabs, t.requestId ≠ some createdId) :
    SessionInv (setCurrentRequest s req) := by
  obtain ⟨hb, hids, hrids⟩ := hinv
  cases hf : s.openTabs.find? (fun u => some u.id == s.activeTabId) with
  | none =>
    have hnone : ∀ u ∈ s.openTabs,
        ¬((some u.id == s.activeTabId) = true) :=
      fun u hu => List.find?_eq_none.mp hf u hu
    simp only [setCurrentRequest]
    rw [map_eq_self_of_fix _ _ (fun u hu => if_neg (hnone u hu))]
    exact ⟨hb, hids, hrids⟩
  | some t0 =>
    obtain ⟨l1, l2, heq, hA, hB⟩ :=
      active_find_split s.openTabs s.activeTabId t0 hids hf
    have ht0p : (some t0.id == s.activeTabId) = true :=
      @List.find?_some _ (fun u => some u.id == s.activeTabId) t0
        s.openTabs hf
    have ht0rid : t0.requestId = none := by
      have hcx : (currentRequestOf s).id = t0.requestId := by
        simp [currentRequestOf, currentTabOf, hf]
      rw [hcx] at hcur
      exact hcur
    have hfix1 : ∀ u ∈ l1, (fun t =>
        if some t.id == s.activeTabId then
          { t with
            requestId := req.id, name := req.name, method := req.method,
            url := req.url, headers := req.headers,
            queryParams := req.queryParams, body := req.body,
            folder_id := req.folder_id, dirty := true }
        else t) u = u := by
      intro u hu
      have := hA u hu
      simp [this]
    have hfix2 : ∀ u ∈ l2, (fun t =>
        if some t.id == s.activeTabId then
          { t with
            requestId := req.id, name := req.name, method := req.method,
            url := req.url, headers := req.headers,
            queryParams := req.queryParams, body := req.body,
            folder_id := req.folder_id, dirty := true }
        else t) u = u := by
      intro u hu
      have := hB u hu
      simp [this]
    simp only [setCurrentRequest]
    rw [heq, map_split_at_fix _ l1 l2 t0 hfix1 hfix2, if_pos ht0p]
    rw [heq] at hb hids hrids
    refine ⟨?_, ?_, ?_⟩
    · intro t htm
      show t.id < s.tabCounter
      rcases List.mem_append.mp htm with h1 | h2
      · exact hb t (List.mem_append_left _ h1)
      · rcases List.mem_cons.mp h2 with h3 | h4
        · subst h3
          exact hb t0 (List.mem_append_right _ (List.mem_cons_self _ _))
        · exact hb t (List.mem_append_right _ (List.mem_cons_of_mem _ h4))
    · have hsame : ((l1 ++ { t0 with
          requestId := req.id, name := req.name, method := req.method,
          url := req.url, headers := req.headers,
          queryParams := req.queryParams, body := req.body,
          folder_id := req.folder_id, dirty := true } :: l2).map
            (fun t => t.id)) =
          ((l1 ++ t0 :: l2).map (fun t => t.id)) := by
        simp
      rw [hsame]
      exact hids
    · have hproj : ({ t0 with
          requestId := req.id, name := req.name, method := req.method,
          url := req.url, headers := req.headers,
          queryParams := req.queryParams, body := req.body,
          folder_id := req.folder_id, dirty := true } :
            RequestTab).requestId = some createdId := hreq
      have hgoal : ((l1 ++ { t0 with
          requestId := req.id, name := req.name, method := req.method,
          url := req.url, headers := req.headers,
          queryParams := req.queryParams, body := req.body,
          folder_id := req.folder_id, dirty := true } :: l2).filterMap
            (fun t => t.requestId)) =
          l1.filterMap (fun t => t.requestId) ++ createdId ::
            l2.filterMap (fun t => t.requestId) := by
        rw [List.filterMap_append, List.filterMap_cons, hproj]
      rw [hgoal]
      rw [List.filterMap_append, List.filterMap_cons, ht0rid] at hrids
      have hrids2 : (l1.filterMap (fun t => t.requestId) ++
          l2.filterMap (fun t => t.requestId)).Nodup := hrids
      have hni : createdId ∉ l1.filterMap (fun t => t.requestId) ++
          l2.filterMap (fun t => t.requestId) := by
        intro hmem
        rcases List.mem_append.mp hmem with h1 | h2
        · obtain ⟨u, hu, hur⟩ := (mem_rids_iff _ _).mp h1
          exact hfresh u (by rw [heq]; exact List.mem_append_left _ hu) hur
        · obtain ⟨u, hu, hur⟩ := (mem_rids_iff _ _).mp h2
          exact hfresh u
            (by rw [heq]
                exact List.mem_append_right _ (List.mem_cons_of_mem _ hu)) hur
      rw [List.nodup_middle]
      exact List.nodup_cons.mpr ⟨hni, hrids2⟩

/-- Every Session Manager operation preserves the session invariant. -/
theorem inv_step {s s' : SessionState} (hinv : SessionInv s)
    (hstep : SessionStep s s') : SessionInv s' := by
  cases hstep with
  | openReq req =>
    cases hf : s.openTabs.find? (fun t => t.requestId == some req.id) with
    | some existing =>
      have heq : loadRequest s req = { s with activeTabId := some existing.id } := by
        simp [loadRequest, hf]
      rw [heq]
      exact ⟨hinv.1, hinv.2.1, hinv.2.2⟩
    | none =>
      simp only [loadRequest, hf]
      apply inv_append_fresh s hinv _ rfl
      intro rid hsome hmem
      have hr2 : rid = req.id := by
        have h3 : some req.id = some rid := hsome
        injection h3 with h4
        exact h4.symm
      subst hr2
      obtain ⟨t, ht, htr⟩ := (mem_rids_iff _ _).mp hmem
      have h5 := List.find?_eq_none.mp hf t ht
      apply h5
      simp [htr]
  | newTab folderId =>
    apply inv_append_fresh s hinv _ rfl
    intro rid hsome hmem
    cases hsome
  | close tabId =>
    exact inv_of_sublist s hinv _ (List.filter_sublist _) _
  | closeOthers tabId =>
    by_cases hk : (s.openTabs.filter (fun t => t.id == tabId)).length = 0
    · have heq : closeOtherTabs s tabId = s := by
        simp [closeOtherTabs, hk]
      rw [heq]
      exact hinv
    · have heq : closeOtherTabs s tabId =
          { s with
            openTabs := s.openTabs.filter (fun t => t.id == tabId),
            activeTabId := some tabId } := by
        simp [closeOtherTabs, hk]
      rw [heq]
      exact inv_of_sublist s hinv _ (List.filter_sublist _) _
  | closeAll =>
    exact inv_of_sublist s hinv _ (List.nil_sublist _) _
  | history h =>
    apply inv_append_fresh s hinv _ rfl
    intro rid hsome hmem
    cases hsome
  | edit req hid =>
    apply inv_map_preserving s hinv _ s.activeTabId
    · intro t ht
      by_cases hc : (some t.id == s.activeTabId) = true
      · rw [if_pos hc]
      · rw [if_neg hc]
    · intro t ht
      by_cases hc : (some t.id == s.activeTabId) = true
      · rw [if_pos hc]
        show req.id = t.requestId
        have hex : (s.openTabs.find?
            (fun u => some u.id == s.activeTabId)).isSome := by
          rw [List.find?_isSome]
          exact ⟨t, ht, hc⟩
        obtain ⟨t2, hf⟩ := Option.isSome_iff_exists.mp hex
        have ht2p : (some t2.id == s.activeTabId) = true :=
          @List.find?_some _ (fun u => some u.id == s.activeTabId) t2
            s.openTabs hf
        have ht2m : t2 ∈ s.openTabs :=
          @List.mem_of_find?_eq_some _ (fun u => some u.id == s.activeTabId)
            t2 s.openTabs hf
        have hid2 : t2.id = t.id := by
          have e1 : some t2.id = s.activeTabId := by simpa using ht2p
          have e2 : some t.id = s.activeTabId := by simpa using hc
          rw [← e2] at e1
          injection e1
        have ht2t : t2 = t :=
          eq_of_mem_nodup_ids (fun u => u.id) s.openTabs hinv.2.1 t2 t
            ht2m ht hid2
        have hcur : (currentRequestOf s).id = t.requestId := by
          simp [currentRequestOf, currentTabOf, hf, ht2t]
        rw [hid, hcur]
      · rw [if_neg hc]
  | save createdId nameOverride hfresh =>
    cases hcid : (currentRequestOf s).id with
    | some v =>
      simp only [saveRequest, hcid]
      apply inv_map_preserving s hinv
      · intro t ht
        dsimp only
        split
        · split <;> rfl
        · rfl
      · intro t ht
        dsimp only
        split
        · split <;> rfl
        · rfl
    | none =>
      simp only [saveRequest, hcid]
      apply inv_map_preserving _
        (inv_bind_created s hinv _ createdId rfl hcid hfresh)
      · intro t ht
        dsimp only
        split
        · split <;> rfl
        · rfl
      · intro t ht
        dsimp only
        split
        · split <;> rfl
        · rfl
  | response resp =>
    apply inv_map_preserving s hinv _ s.activeTabId
    · intro t ht
      by_cases hc : (some t.id == s.activeTabId) = true
      · rw [if_pos hc]
      · rw [if_neg hc]
    · intro t ht
      by_cases hc : (some t.id == s.activeTabId) = true
      · rw [if_pos hc]
      · rw [if_neg hc]

/-- Every reachable session state satisfies the session invariant. -/
theorem reachable_inv {s : SessionState} (h : ReachableSession s) :
    SessionInv s := by
  induction h with
  | init => exact ⟨by decide, by decide, by decide⟩
  | step _ hs ih => exact inv_step ih hs

theorem take_get_drop {T : Type} (l : List T) (i : Nat) (hi : i < l.length) :
    l = l.take i ++ l.get ⟨i, hi⟩ :: l.drop (i + 1) := by
  induction l generalizing i with
  | nil => cases hi
  | cons c rest ih =>
    cases i with
    | zero => simp
    | succ n =>
      have hi2 : n < rest.length := by simpa using hi
      have hg : (c :: rest).get ⟨n + 1, hi⟩ = rest.get ⟨n, hi2⟩ := rfl
      simp only [List.take_succ_cons, List.drop_succ_cons, List.cons_append,
        hg]
      rw [← ih n hi2]

theorem eraseIdx_at_split {T : Type} (l1 l2 : List T) (x : T) :
    (l1 ++ x :: l2).eraseIdx l1.length = l1 ++ l2 := by
  induction l1 with
  | nil => simp [List.eraseIdx]
  | cons c rest ih => simp [List.eraseIdx, ih]

/-- C7: closing the active tab at index `i` of `n` tabs removes exactly
that tab and activates the tab now at index `min i (n - 2)` of the
remaining list; when it was the only tab, no tab remains active. -/
theorem c7_close_active_tab (s : SessionState) (i : Nat)
    (hi : i < s.openTabs.length)
    (hnd : (s.openTabs.map (fun t => t.id)).Nodup)
    (hact : s.activeTabId = some ((s.openTabs.get ⟨i, hi⟩).id)) :
    (closeTab s ((s.openTabs.get ⟨i, hi⟩).id)).openTabs =
      s.openTabs.eraseIdx i ∧
    (s.openTabs.length = 1 →
      (closeTab s ((s.openTabs.get ⟨i, hi⟩).id)).activeTabId = none) ∧
    (2 ≤ s.openTabs.length →
      (closeTab s ((s.openTabs.get ⟨i, hi⟩).id)).activeTabId =
        ((s.openTabs.eraseIdx i).get? (min i (s.openTabs.length - 2))).map
          (fun t => t.id)) := by
  set t0 := s.openTabs.get ⟨i, hi⟩ with ht0
  have hsplit := take_get_drop s.openTabs i hi
  rw [← ht0] at hsplit
  set l1 := s.openTabs.take i with hl1def
  set l2 := s.openTabs.drop (i + 1) with hl2def
  have hl1 : l1.length = i := by
    rw [hl1def]
    simp [List.length_take]
    omega
  have hl2 : l2.length = s.openTabs.length - 1 - i := by
    rw [hl2def]
    simp only [List.length_drop]
    omega
  obtain ⟨hA, hB⟩ :=
    nodup_ids_split (fun t => t.id) l1 l2 t0 (by rw [← hsplit]; exact hnd)
  have hfil : s.openTabs.filter (fun t => t.id != t0.id) = l1 ++ l2 := by
    rw [hsplit]
    apply filter_split_out
    · intro u hu
      simpa using hA u hu
    · intro u hu
      simpa using hB u hu
    · simp
  have herase : s.openTabs.eraseIdx i = l1 ++ l2 := by
    conv_lhs => rw [hsplit, ← hl1]
    exact eraseIdx_at_split l1 l2 t0
  have hbeq : (s.activeTabId == some t0.id) = true := by
    rw [hact]
    simp
  have hidx : jsFindIndex (fun t => t.id == t0.id) s.openTabs = (i : Int) := by
    rw [hsplit]
    rw [jsFindIndex_append _ l1 l2 t0 (fun u hu => by simpa using hA u hu)
      (by simp)]
    rw [hl1]
  refine ⟨?_, ?_, ?_⟩
  · show s.openTabs.filter (fun t => t.id != t0.id) = s.openTabs.eraseIdx i
    rw [hfil, herase]
  · intro hone
    have hlen0 : (l1 ++ l2).length = 0 := by
      simp only [List.length_append]
      omega
    simp only [closeTab]
    rw [if_pos hbeq, hfil, if_neg (by omega)]
  · intro h2
    have hrlen : (l1 ++ l2).length = s.openTabs.length - 1 := by
      simp only [List.length_append]
      omega
    simp only [closeTab]
    rw [if_pos hbeq, hfil, if_pos (by omega : 0 < (l1 ++ l2).length), hidx,
      herase]
    have hmin : min (i : Int) (((l1 ++ l2).length : Int) - 1) =
        ((min i (s.openTabs.length - 2) : Nat) : Int) := by
      rw [hrlen]
      omega
    rw [hmin]
    have hnneg : ¬(((min i (s.openTabs.length - 2) : Nat) : Int) < 0) := by
      omega
    rw [jsIndex, if_neg hnneg]
    have htn : ((min i (s.openTabs.length - 2) : Nat) : Int).toNat =
        min i (s.openTabs.length - 2) := by
      omega
    rw [htn]

/-- C10: closing a tab other than the active one removes exactly that
tab and leaves the active tab id unchanged. -/
theorem c10_close_inactive_tab (s : SessionState) (t : RequestTab)
    (hnd : (s.openTabs.map (fun u => u.id)).Nodup)
    (ht : t ∈ s.openTabs) (hne : s.activeTabId ≠ some t.id) :
    (closeTab s t.id).activeTabId = s.activeTabId ∧
    ∃ l1 l2, s.openTabs = l1 ++ t :: l2 ∧
      (closeTab s t.id).openTabs = l1 ++ l2 := by
  have hbeq : (s.activeTabId == some t.id) = false := by
    rw [beq_eq_false_iff_ne]
    exact hne
  obtain ⟨l1, l2, hsplit⟩ := List.append_of_mem ht
  obtain ⟨hA, hB⟩ :=
    nodup_ids_split (fun u => u.id) l1 l2 t (by rw [← hsplit]; exact hnd)
  have hfil : s.openTabs.filter (fun u => u.id != t.id) = l1 ++ l2 := by
    rw [hsplit]
    apply filter_split_out
    · intro u hu
      simpa using hA u hu
    · intro u hu
      simpa using hB u hu
    · simp
  constructor
  · simp only [closeTab]
    rw [if_neg (by rw [hbeq]; simp)]
  · refine ⟨l1, l2, hsplit, ?_⟩
    show s.openTabs.filter (fun u => u.id != t.id) = l1 ++ l2
    exact hfil

/-- The tab `loadRequest` appends when no tab for the request exists
(spelled out for use in proofs; it is definitionally the literal inside
`loadRequest`). -/
def loadedTab (s : SessionState) (req : Request) : RequestTab :=
  { id := s.tabCounter, requestId := some req.id, name := req.name,
    method := req.method, url := req.url,
    headers := paramsOfRecord req.headers ++ [emptyParam],
    queryParams := paramsOfRecord req.query_params ++ [emptyParam],
    body := req.body.getD "", folder_id := jsOrNone req.folder_id,
    response := none, dirty := false }

/-- C9: `new()` always creates a tab that is born dirty and unlinked;
`open()` of a not-yet-open persisted request creates a tab that is born
clean and linked; and any field edit (all of which funnel through
`setCurrentRequest`) leaves the active tab dirty. -/
theorem c9_dirty_flags (s : SessionState) (r : Request) (fid : Option Nat)
    (req : CurrentRequest) :
    (∃ nt, (newRequest s fid).openTabs = s.openTabs ++ [nt] ∧
      nt.dirty = true ∧ nt.requestId = none) ∧
    (s.openTabs.find? (fun t => t.requestId == some r.id) = none →
      ∃ nt, (loadRequest s r).openTabs = s.openTabs ++ [nt] ∧
        nt.dirty = false ∧ nt.requestId = some r.id) ∧
    (∀ t ∈ (setCurrentRequest s req).openTabs, some t.id = s.activeTabId →
      t.dirty = true) := by
  refine ⟨⟨_, rfl, rfl, rfl⟩, ?_, ?_⟩
  · intro hf
    refine ⟨loadedTab s r, ?_, rfl, rfl⟩
    simp only [loadRequest, hf]
    rfl
  · intro t htm hta
    obtain ⟨u, hu, hut⟩ := List.mem_map.mp htm
    by_cases hc : (some u.id == s.activeTabId) = true
    · rw [if_pos hc] at hut
      rw [← hut]
    · rw [if_neg hc] at hut
      subst hut
      exact absurd (by rw [hta]; simp) hc

/-- C6: in every reachable session state at most one open tab is linked
to any given persisted request id, and `open()` on a request that
already has a tab activates that tab and creates nothing. -/
theorem c6_unique_request_tab (s : SessionState)
    (hreach : ReachableSession s) :
    (s.openTabs.filterMap (fun t => t.requestId)).Nodup ∧
    ∀ (req : Request) (t : RequestTab), t ∈ s.openTabs →
      t.requestId = some req.id →
      (loadRequest s req).openTabs = s.openTabs ∧
      (loadRequest s req).activeTabId = some t.id := by
  have hinv := reachable_inv hreach
  refine ⟨hinv.2.2, ?_⟩
  intro req t ht htr
  have hf := find?_requestId_unique s.openTabs t req.id hinv.2.2 ht htr
  constructor
  · simp [loadRequest, hf]
  · simp [loadRequest, hf]

/-- Sample tabs and session used by the closed instances below. -/
def tabA : RequestTab :=
  { id := 0, requestId := none, name := "A", method := "GET", url := "",
    headers := [emptyParam], queryParams := [emptyParam], body := "",
    folder_id := none, response := none, dirty := true }

def tabB : RequestTab :=
  { tabA with id := 1, name := "B" }

def sPair : SessionState :=
  { openTabs := [tabA, tabB], activeTabId := some 0, tabCounter := 2 }

def reqEx : Request :=
  { id := 5, name := "R", method := "GET", url := "http://x", headers := [],
    query_params := [], body := none, folder_id := none, sort_order := 0 }

/-- Closed instance of C7 discharging its hypotheses: closing the active
first tab of two removes it and activates the remaining tab. -/
theorem c7_witness :
    (closeTab sPair 0).openTabs = [tabB] ∧
    (closeTab sPair 0).activeTabId = some 1 := by
  have h := c7_close_active_tab sPair 0 (by decide) (by decide) (by decide)
  exact ⟨h.1, h.2.2 (by decide)⟩

/-- Closed instance of C10 discharging its hypotheses: closing the
non-active second tab leaves the active tab id unchanged. -/
theorem c10_witness :
    (closeTab sPair 1).activeTabId = sPair.activeTabId :=
  (c10_close_inactive_tab sPair tabB (by decide) (by decide) (by decide)).1

/-- Closed instance of C9 discharging its hypotheses on the initial
session and a concrete persisted request. -/
theorem c9_witness :
    (∃ nt, (newRequest initialState none).openTabs =
      initialState.openTabs ++ [nt] ∧ nt.dirty = true ∧
      nt.requestId = none) ∧
    (∃ nt, (loadRequest initialState reqEx).openTabs =
      initialState.openTabs ++ [nt] ∧ nt.dirty = false ∧
      nt.requestId = some reqEx.id) := by
  have h := c9_dirty_flags initialState reqEx none
    (currentRequestOf initialState)
  exact ⟨h.1, h.2.1 (by decide)⟩

/-- Closed instance of C6 discharging its hypotheses: opening request 5
twice yields no second tab and re-activates the tab created the first
time. -/
theorem c6_witness :
    (loadRequest (loadRequest initialState reqEx) reqEx).openTabs =
      (loadRequest initialState reqEx).openTabs ∧
    (loadRequest (loadRequest initialState reqEx) reqEx).activeTabId =
      some 1 :=
  (c6_unique_request_tab (loadRequest initialState reqEx)
    (ReachableSession.step ReachableSession.init
      (SessionStep.openReq initialState reqEx))).2 reqEx
    (loadedTab initialState reqEx) (by decide) rfl

/-- The (never invoked) validity filter itself does satisfy the
kind-match property the specification states for it. -/
theorem isValidDrop_gap_kind (dragType refType : DragItemType)
    (position : GapPos) (refId : Nat)
    (h : isValidDrop dragType (.gap position refId refType) = true) :
    refType = dragType := by
  cases dragType <;> cases refType <;> simp_all [isValidDrop]

/-- The commit side is guarded: a gap drop whose kinds mismatch issues
no persistence call, so the missing filter only affects what is surfaced
while hovering. -/
theorem handleGapDrop_mismatch_noop (st : TreeState) (drag : DragData)
    (position : GapPos) (refId : Nat) (refType : DragItemType)
    (h : drag.type ≠ refType) :
    handleGapDrop st drag position refId refType = [] := by
  have h1 : ¬(drag.type = .request ∧ refType = .request) := by
    rintro ⟨ha, hb⟩
    exact h (ha.trans hb.symm)
  have h2 : ¬(drag.type = .folder ∧ refType = .folder) := by
    rintro ⟨ha, hb⟩
    exact h (ha.trans hb.symm)
  simp [handleGapDrop, h1, h2]
